import Mathlib

set_option autoImplicit false

/-!
Verification of the marker-pair segment shuffler in
`suffle_capcu_track.py` (Capcut-Mixing-Tool).

The Python code mutates a JSON tree in place.  We embed it shallowly:

* A `Segment` models one segment dict: its `target_timerange` sub-dict
  (possibly absent, with possibly absent `start` / `duration` keys, as the
  code reads them via `.get` with defaults) and a `payload` field standing
  for all other content of the dict (material, id, keyframes, ...) — it
  participates in the structural (dict) equality that `segments.index`
  uses, which is why it must be part of the model.
* Python segment dicts are heap objects aliased by the `segments` array;
  `random.shuffle` permutes references and `seg['target_timerange']['start']
  = cursor` mutates the object seen through every alias.  We model the heap
  explicitly: `Document.heap : List Segment` is the object store and a
  track's `segments` field is a list of object ids (indices into the heap).
  A freshly parsed document has pairwise-distinct ids, one per slot.
* A mark item is modelled by its projected `time_range.start` integer,
  the only field of it the code reads (line 82).
* Each `raise` site becomes an `Err` constructor; `pyClass`/`pyMessage`
  record the Python exception class and message of the site.
-/

structure TimeRange where
  start : Option Int
  duration : Option Int
deriving DecidableEq, Repr

structure Segment where
  target_timerange : Option TimeRange
  payload : Nat
deriving DecidableEq, Repr

structure Track where
  type : Option String
  segments : List Nat
deriving DecidableEq, Repr

structure TimeMarks where
  mark_items : Option (List Int)
deriving DecidableEq, Repr

structure Document where
  time_marks : Option TimeMarks
  tracks : List Track
  heap : List Segment
deriving DecidableEq, Repr

/-- Errors, one per raise site reached by `shuffle_segments_between_marker_pairs`. -/
inductive Err
  | notFound
  | formatError
  | insufficientMarkers
  | noTracks
  | noVideoTrack
  | keyError
  | indexNotFound
deriving DecidableEq, Repr

/-- Python exception class of each raise site.  Lines 39/86/94/101 raise
`ValueError`; `json.load` raises `json.JSONDecodeError` (a `ValueError`
subclass, recorded here by its own name); line 163/164 raise `KeyError`;
`list.index` raises `ValueError` when the element is missing. -/
def pyClass : Err → String
  | .notFound => "ValueError"
  | .formatError => "JSONDecodeError"
  | .insufficientMarkers => "ValueError"
  | .noTracks => "ValueError"
  | .noVideoTrack => "ValueError"
  | .keyError => "KeyError"
  | .indexNotFound => "ValueError"

/-- Message of each raise site (for the parser/lookup errors, the stable
part of the message). -/
def pyMessage : Err → String
  | .notFound => "draft_content.json not found in project folder"
  | .formatError => "Expecting value"
  | .insufficientMarkers => "Project must contain at least 2 markers"
  | .noTracks => "Project has no tracks"
  | .noVideoTrack => "No video track with segments found"
  | .keyError => "target_timerange"
  | .indexNotFound => "x is not in list"

/-- Dereference an object id in the heap.  Out-of-range ids never occur in
states reachable from a parsed document; the default is a segment with no
`target_timerange`. -/
def getSeg (heap : List Segment) (sid : Nat) : Segment :=
  heap.getD sid ⟨none, 0⟩

/-- Line 130: `seg.get('target_timerange', \x7b\x7d).get('start', 0)`. -/
def segStart (s : Segment) : Int :=
  (s.target_timerange.bind TimeRange.start).getD 0

/-- Lines 131/162: `seg.get('target_timerange', \x7b\x7d).get('duration', 0)`. -/
def segDuration (s : Segment) : Int :=
  (s.target_timerange.bind TimeRange.duration).getD 0

/-- The `start` field as stored: `none` when `target_timerange` or its
`start` key is absent. -/
def startOf (s : Segment) : Option Int :=
  s.target_timerange.bind TimeRange.start

/-- Lines 130-131: the containment test of the window selection. -/
def containsSeg (ws we : Int) (s : Segment) : Bool :=
  decide (segStart s ≥ ws) && decide (segStart s + segDuration s ≤ we)

/-- Lines 128-132: `segments_in_range`, the ids of the segments of the
track (in slot order) whose current value passes the containment test. -/
def collectInRange (heap : List Segment) (ids : List Nat) (ws we : Int) : List Nat :=
  ids.filter (fun sid => containsSeg ws we (getSeg heap sid))

/-- Line 151: `segments.index(seg)` — position of the first slot whose
element compares equal (dict equality) to the given object. -/
def pyIndex (heap : List Segment) (ids : List Nat) (sid : Nat) : Option Nat :=
  ids.findIdx? (fun i => getSeg heap i == getSeg heap sid)

/-- Line 154: `sorted(segment_indices)` (ascending, on naturals). -/
def sortAsc (l : List Nat) : List Nat :=
  List.insertionSort (fun a b => a ≤ b) l

/-- Line 82: `sorted(..., reverse=True)` (descending, on integers). -/
def sortDesc (l : List Int) : List Int :=
  List.insertionSort (fun a b => a ≥ b) l

/-- Line 151: the list comprehension `[segments.index(seg) for seg in
segments_in_range]` — all lookups performed in order, raising on the first
failure (which cannot happen in a source run, since every collected object
is present in the array when the indices are computed). -/
def mapOption {α β : Type} (f : α → Option β) : List α → Option (List β)
  | [] => some []
  | x :: xs =>
    match f x, mapOption f xs with
    | some y, some ys => some (y :: ys)
    | _, _ => none

/-- Lines 154-155: `for idx, seg in zip(sorted(segment_indices),
segments_in_range): segments[idx] = seg` — sequential assignment of the
permuted ids into the sorted index list (`zip` truncates to the shorter). -/
def place : List Nat → List Nat → List Nat → List Nat
  | ids, i :: is, s :: ss => place (ids.set i s) is ss
  | ids, _, _ => ids

/-- Lines 159-166: the re-timing loop.  Walks the permuted ids, setting
each object's `target_timerange['start']` to the cursor and advancing the
cursor by its `duration` (read with default 0).  Line 163 indexes
`seg['target_timerange']` without a default: if the sub-dict is absent the
loop raises `KeyError`, leaving the writes made so far in place. -/
def retimeAux : List Segment → Int → List Nat → List Segment × Option Err
  | heap, _, [] => (heap, none)
  | heap, cursor, sid :: rest =>
    let s := getSeg heap sid
    match s.target_timerange with
    | none => (heap, some .keyError)
    | some tr =>
      retimeAux (heap.set sid ⟨some ⟨some cursor, tr.duration⟩, s.payload⟩)
        (cursor + segDuration s) rest

/-- The mutable state the pair loop threads: the object store and the
target track's live `segments` array (a list of ids). -/
structure St where
  heap : List Segment
  ids : List Nat
deriving DecidableEq, Repr

/-- Lines 113-166, one iteration of the pair loop.  `pick` is the outcome
of `random.shuffle` for this window (a permutation of its argument in any
run of the source). -/
def processPair (pick : List Nat → List Nat) (st : St) (ws we : Int) : St × Option Err :=
  if ws ≥ we then (st, none)
  else
    let sir := collectInRange st.heap st.ids ws we
    if sir.isEmpty then (st, none)
    else
      let shuffled := pick sir
      match mapOption (pyIndex st.heap st.ids) shuffled with
      | none => (st, some .indexNotFound)
      | some idxs =>
        let newIds := place st.ids (sortAsc idxs) shuffled
        let res := retimeAux st.heap ws shuffled
        (⟨res.1, newIds⟩, res.2)

/-- The pair loop.  `rnd k` is the shuffle outcome of the k-th processed
pair.  A raise aborts the loop, keeping the mutations made so far. -/
def processPairs (rnd : Nat → List Nat → List Nat) :
    St → List (Int × Int) → Nat → St × Option Err
  | st, [], _ => (st, none)
  | st, (ws, we) :: rest, k =>
    match processPair (rnd k) st ws we with
    | (st₂, none) => processPairs rnd st₂ rest (k + 1)
    | (st₂, some e) => (st₂, some e)

/-- Line 113: `range(0, len(markers) - 1, 2)` with
`marker_start = markers[p + 1]`, `marker_end = markers[p]`. -/
def markerPairs : List Int → List (Int × Int)
  | m₀ :: m₁ :: rest => (m₁, m₀) :: markerPairs rest
  | _ => []

/-- Lines 75-82: `project_data.get('time_marks', \x7b\x7d)` then
`.get('mark_items', [])`, each item projected to `time_range.start`. -/
def markItemsOf (d : Document) : List Int :=
  match d.time_marks with
  | none => []
  | some tm => tm.mark_items.getD []

/-- Line 82: the descending-sorted marker list. -/
def markersOf (d : Document) : List Int :=
  sortDesc (markItemsOf d)

/-- The track-type tag the filter on line 98 compares against. -/
def videoTag : String :=
  "video"

/-- A track-type tag other than `video`, for fixtures. -/
def textTag : String :=
  "text"

/-- Line 98: `t.get('type') == 'video' and t.get('segments')`. -/
def isVideoWithSegs (t : Track) : Bool :=
  t.type == some videoTag && !t.segments.isEmpty

/-- Line 104: a step of `max(..., key=lambda t: len(t.get('segments', [])))`
over (index, track) pairs — Python `max` keeps the first of equals. -/
def maxStep (best t : Nat × Track) : Nat × Track :=
  if t.2.segments.length > best.2.segments.length then t else best

/-- Lines 92-104: track validation and selection.  The result carries the
index of the chosen track in `tracks`, modelling the fact that Python's
`max` returns a reference to one particular element. -/
def selectTarget (tracks : List Track) : Except Err (Nat × Track) :=
  if tracks.isEmpty then .error .noTracks
  else
    match tracks.enum.filter (fun it => isVideoWithSegs it.2) with
    | [] => .error .noVideoTrack
    | v :: vs => .ok (vs.foldl maxStep v)

/-- `_shuffle_in_draft_format` (lines 63-168).  Returns the in-memory
document as it stands when the function returns or raises, together with
the raised error, if any. -/
def shuffleDraft (rnd : Nat → List Nat → List Nat) (d : Document) :
    Document × Option Err :=
  let markers := markersOf d
  if markers.length < 2 then (d, some .insufficientMarkers)
  else
    match selectTarget d.tracks with
    | .error e => (d, some e)
    | .ok (ti, tt) =>
      let res := processPairs rnd ⟨d.heap, tt.segments⟩ (markerPairs markers) 0
      ({ d with
          heap := res.1.heap,
          tracks := d.tracks.set ti { tt with segments := res.1.ids } },
        res.2)

/-- The non-`start` observables of a segment object: presence of
`target_timerange`, its `duration` (including absence), and all other
content.  Anything the re-timing loop must not change. -/
def durData (s : Segment) : Option (Option Int) × Nat :=
  (s.target_timerange.map TimeRange.duration, s.payload)

/-- Total duration (defaults applied) of a list of segment objects. -/
def sumDur (heap : List Segment) (l : List Nat) : Int :=
  (l.map (fun sid => segDuration (getSeg heap sid))).sum

/-- The slot indices of the track whose current occupant passes the
containment test, in ascending order. -/
def collectedSlots (heap : List Segment) (ids : List Nat) (ws we : Int) : List Nat :=
  (List.range ids.length).filter
    (fun j => containsSeg ws we (getSeg heap (ids.getD j 0)))

/-- A run of `random.shuffle` that happened to return its input order
(one of the n! equally likely outcomes). -/
def idRnd : Nat → List Nat → List Nat :=
  fun _ l => l

/-- A run of `random.shuffle` that reversed its input (another possible
outcome). -/
def revRnd : Nat → List Nat → List Nat :=
  fun _ l => l.reverse

/-- Segment constructor for fixtures: both timing keys present. -/
def mkSeg (st du : Int) (p : Nat) : Segment :=
  ⟨some ⟨some st, some du⟩, p⟩

/-- Fixture: two structurally equal segment dicts (equal content,
distinct objects), both inside the single window [0, 1000]. -/
def dupDoc : Document :=
  ⟨some ⟨some [0, 1000]⟩, [⟨some videoTag, [0, 1]⟩], [mkSeg 100 50 0, mkSeg 100 50 0]⟩

/-- Fixture: one zero-duration segment in the first processed window
[2000, 3000]; after its re-timing to start 2000 it also passes the second
window's ([500, 2000]) containment test and is re-timed again. -/
def stealDoc : Document :=
  ⟨some ⟨some [500, 2000, 2000, 3000]⟩, [⟨some videoTag, [0]⟩], [mkSeg 2200 0 0]⟩

/-- Fixture: the spec's end-to-end example — markers 1000/3000/6000/9000,
three segments of durations 500/300/200 inside [1000, 3000] and two of
durations 1000/500 inside [6000, 9000], plus a non-video track. -/
def exDoc : Document :=
  ⟨some ⟨some [1000, 3000, 6000, 9000]⟩,
   [⟨some textTag, [10, 11, 12]⟩,
    ⟨some videoTag, [0, 1, 2, 3, 4]⟩],
   [mkSeg 1000 500 0, mkSeg 1500 300 1, mkSeg 1800 200 2,
    mkSeg 6000 1000 3, mkSeg 7000 500 4]⟩

/-- Fixture: a collected segment whose `target_timerange` dict is absent. -/
def missDoc : Document :=
  ⟨some ⟨some [0, 1000]⟩, [⟨some videoTag, [0]⟩], [⟨none, 7⟩]⟩

/-- Fixture: a two-segment window-pass state (both segments distinct and
inside the window [0, 1000]). -/
def wSt : St :=
  ⟨[mkSeg 100 50 0, mkSeg 200 30 1], [0, 1]⟩

/-- Fixture: a document with a single marker. -/
def oneMarkDoc : Document :=
  ⟨some ⟨some [5]⟩, [⟨some videoTag, [0]⟩], [mkSeg 0 1 0]⟩

/-- Fixture: one segment inside the single window [0, 1000] and one far
outside it. -/
def outDoc : Document :=
  ⟨some ⟨some [0, 1000]⟩, [⟨some videoTag, [0, 1]⟩], [mkSeg 100 50 0, mkSeg 5000 10 1]⟩

/-- What the load step found at `project_path/draft_content.json`. -/
inductive LoadedFile
  | missing
  | malformed
  | parsed (d : Document)
deriving DecidableEq, Repr

/-- `shuffle_segments_between_marker_pairs` (lines 7-60): load (line 38
raises on a missing file, line 42 on unparseable content), shuffle, and
write back only when the shuffle returned normally.  The first component
is the content of the file on storage afterwards. -/
def shuffle_segments_between_marker_pairs (rnd : Nat → List Nat → List Nat)
    (file : LoadedFile) : LoadedFile × Option Err :=
  match file with
  | .missing => (.missing, some .notFound)
  | .malformed => (.malformed, some .formatError)
  | .parsed d =>
    match shuffleDraft rnd d with
    | (_, some e) => (.parsed d, some e)
    | (d₂, none) => (.parsed d₂, none)

/-! ### Generic list helpers -/

theorem getD_set_self {α : Type} {l : List α} {i : Nat} (h : i < l.length) (a d : α) :
    (l.set i a).getD i d = a := by
  rw [List.getD_eq_getElem?_getD, List.getElem?_set_self h, Option.getD_some]

theorem getD_set_ne {α : Type} {l : List α} {i j : Nat} (h : i ≠ j) (a d : α) :
    (l.set i a).getD j d = l.getD j d := by
  rw [List.getD_eq_getElem?_getD, List.getElem?_set_ne h, ← List.getD_eq_getElem?_getD]

theorem getD_oob {α : Type} {l : List α} {i : Nat} (h : l.length ≤ i) (d : α) :
    l.getD i d = d := by
  rw [List.getD_eq_getElem?_getD, List.getElem?_eq_none h, Option.getD_none]

theorem findIdx?_isSome_of_mem {α : Type} {p : α → Bool} {x : α} :
    ∀ {l : List α}, x ∈ l → p x = true → ∀ i, (l.findIdx? p i).isSome
  | [], hx, _, _ => absurd hx (List.not_mem_nil x)
  | y :: ys, hx, hp, i => by
    rw [List.findIdx?_cons]
    by_cases hy : p y = true
    · simp [hy]
    · have hxy : x ∈ ys := by
        cases hx with
        | head => exact absurd hp hy
        | tail _ h => exact h
      simp only [hy, if_neg, Bool.false_eq_true, if_false]
      exact findIdx?_isSome_of_mem hxy hp (i + 1)

theorem findIdx?_spec {α : Type} {p : α → Bool} (d : α) :
    ∀ {l : List α} {i j : Nat}, l.findIdx? p i = some j →
      i ≤ j ∧ j - i < l.length ∧ p (l.getD (j - i) d) = true ∧
        ∀ m, m < j - i → p (l.getD m d) = false
  | [], i, j, h => by rw [List.findIdx?_nil] at h; cases h
  | x :: xs, i, j, h => by
    rw [List.findIdx?_cons] at h
    by_cases hx : p x = true
    · rw [if_pos hx] at h
      injection h with h
      subst h
      refine ⟨le_refl i, by simp, ?_, ?_⟩
      · simpa using hx
      · intro m hm
        omega
    · rw [if_neg hx] at h
      obtain ⟨h1, h2, h3, h4⟩ := findIdx?_spec d h
      have hij : i + 1 ≤ j := h1
      have hji : j - i = (j - (i + 1)) + 1 := by omega
      refine ⟨by omega, by simpa [hji] using h2, ?_, ?_⟩
      · rw [hji, List.getD_cons_succ]
        exact h3
      · intro m hm
        match m with
        | 0 => simpa using eq_false_of_ne_true hx
        | m + 1 =>
          rw [List.getD_cons_succ]
          exact h4 m (by omega)

theorem findIdx?_zero_spec {α : Type} {p : α → Bool} (d : α) {l : List α} {j : Nat}
    (h : l.findIdx? p = some j) :
    j < l.length ∧ p (l.getD j d) = true ∧ ∀ m, m < j → p (l.getD m d) = false := by
  obtain ⟨_, h2, h3, h4⟩ := findIdx?_spec d h
  rw [Nat.sub_zero] at h2 h3 h4
  exact ⟨h2, h3, h4⟩

theorem mapOption_isSome {α β : Type} {f : α → Option β} :
    ∀ {l : List α}, (∀ x ∈ l, (f x).isSome) → (mapOption f l).isSome
  | [], _ => rfl
  | x :: xs, h => by
    obtain ⟨b, hb⟩ := Option.isSome_iff_exists.mp (h x (List.mem_cons_self x xs))
    obtain ⟨bs, hbs⟩ := Option.isSome_iff_exists.mp
      (mapOption_isSome (fun y hy => h y (List.mem_cons_of_mem x hy)))
    simp [mapOption, hb, hbs]

theorem mapOption_spec {α β : Type} {f : α → Option β} (d : α) (d₂ : β) :
    ∀ {l : List α} {ys : List β}, mapOption f l = some ys →
      ys.length = l.length ∧
        ∀ k, k < l.length → f (l.getD k d) = some (ys.getD k d₂)
  | [], ys, h => by
    injection h with h
    subst h
    exact ⟨rfl, fun k hk => absurd hk (by simp)⟩
  | x :: xs, ys, h => by
    rw [mapOption] at h
    cases hb : f x with
    | none => rw [hb] at h; cases h
    | some b =>
      cases hbs : mapOption f xs with
      | none => rw [hb, hbs] at h; cases h
      | some bs =>
        rw [hb, hbs] at h
        injection h with h
        subst h
        obtain ⟨hl, hk⟩ := mapOption_spec d d₂ hbs
        refine ⟨by simpa using hl, ?_⟩
        intro k hklen
        match k with
        | 0 => simpa using hb
        | k + 1 =>
          rw [List.getD_cons_succ, List.getD_cons_succ]
          exact hk k (by simpa using hklen)

/-! ### Placement (lines 154-155) -/

theorem place_nil {α : List Nat} : ∀ ss, place α [] ss = α := by
  intro ss
  cases ss <;> rfl

theorem place_length : ∀ (is ids ss : List Nat), (place ids is ss).length = ids.length
  | [], ids, ss => by rw [place_nil]
  | i :: is, ids, [] => rfl
  | i :: is, ids, s :: ss => by
    rw [place, place_length is, List.length_set]

theorem place_getD_not_mem :
    ∀ (is ids ss : List Nat) (j d : Nat), j ∉ is →
      (place ids is ss).getD j d = ids.getD j d
  | [], ids, ss, j, d, _ => by rw [place_nil]
  | i :: is, ids, [], j, d, _ => rfl
  | i :: is, ids, s :: ss, j, d, hj => by
    rw [place, place_getD_not_mem is _ _ _ _ (fun h => hj (List.mem_cons_of_mem i h))]
    exact getD_set_ne (fun h => hj (by rw [← h]; exact List.mem_cons_self i is)) s d

theorem place_getD_or :
    ∀ (is ids ss : List Nat) (j d : Nat),
      (place ids is ss).getD j d = ids.getD j d ∨ (place ids is ss).getD j d ∈ ss
  | [], ids, ss, j, d => by rw [place_nil]; exact Or.inl rfl
  | i :: is, ids, [], j, d => Or.inl rfl
  | i :: is, ids, s :: ss, j, d => by
    rw [place]
    rcases place_getD_or is (ids.set i s) ss j d with h | h
    · rw [h]
      by_cases hij : i = j
      · subst hij
        by_cases hlen : i < ids.length
        · rw [getD_set_self hlen]
          exact Or.inr (List.mem_cons_self s ss)
        · rw [List.set_eq_of_length_le (le_of_not_lt hlen)]
          exact Or.inl rfl
      · rw [getD_set_ne hij]
        exact Or.inl rfl
    · exact Or.inr (List.mem_cons_of_mem s h)

theorem place_getD_sorted :
    ∀ (is ids ss : List Nat), is.Pairwise (· < ·) → (∀ x ∈ is, x < ids.length) →
      ∀ k, k < is.length → k < ss.length →
        (place ids is ss).getD (is.getD k 0) 0 = ss.getD k 0
  | [], ids, ss, _, _, k, hk, _ => absurd hk (by simp)
  | i :: is, ids, [], _, _, k, _, hss => absurd hss (by simp)
  | i :: is, ids, s :: ss, hpw, hbound, k, hk, hss => by
    rw [place]
    have hi_notmem : i ∉ is := fun h =>
      absurd ((List.pairwise_cons.mp hpw).1 i h) (lt_irrefl i)
    match k with
    | 0 =>
      rw [List.getD_cons_zero, place_getD_not_mem is _ _ _ _ hi_notmem]
      exact getD_set_self (hbound i (List.mem_cons_self i is)) s 0
    | k + 1 =>
      rw [List.getD_cons_succ, List.getD_cons_succ]
      refine place_getD_sorted is (ids.set i s) ss (List.pairwise_cons.mp hpw).2 ?_
        k (by simpa using hk) (by simpa using hss)
      intro x hx
      rw [List.length_set]
      exact hbound x (List.mem_cons_of_mem i hx)

/-! ### Re-timing (lines 159-166) -/

theorem getSeg_set_self {heap : List Segment} {i : Nat} (h : i < heap.length)
    (s : Segment) : getSeg (heap.set i s) i = s :=
  getD_set_self h s _

theorem getSeg_set_ne {heap : List Segment} {i j : Nat} (h : i ≠ j) (s : Segment) :
    getSeg (heap.set i s) j = getSeg heap j :=
  getD_set_ne h s _

theorem getSeg_oob {heap : List Segment} {i : Nat} (h : heap.length ≤ i) :
    getSeg heap i = ⟨none, 0⟩ :=
  getD_oob h _

theorem sumDur_cons (heap : List Segment) (x : Nat) (l : List Nat) :
    sumDur heap (x :: l) = segDuration (getSeg heap x) + sumDur heap l := by
  simp [sumDur]

theorem retimeAux_length :
    ∀ (l : List Nat) (heap : List Segment) (c : Int),
      ((retimeAux heap c l).1).length = heap.length
  | [], heap, c => rfl
  | sid :: rest, heap, c => by
    cases h : (getSeg heap sid).target_timerange with
    | none => simp [retimeAux, h]
    | some tr =>
      simp only [retimeAux, h]
      rw [retimeAux_length rest, List.length_set]

theorem retimeAux_durData :
    ∀ (l : List Nat) (heap : List Segment) (c : Int) (i : Nat),
      durData (getSeg (retimeAux heap c l).1 i) = durData (getSeg heap i)
  | [], heap, c, i => rfl
  | sid :: rest, heap, c, i => by
    cases h : (getSeg heap sid).target_timerange with
    | none => simp [retimeAux, h]
    | some tr =>
      simp only [retimeAux, h]
      rw [retimeAux_durData rest]
      by_cases hij : sid = i
      · subst hij
        by_cases hlen : sid < heap.length
        · rw [getSeg_set_self hlen]
          simp [durData, h]
        · rw [List.set_eq_of_length_le (le_of_not_lt hlen)]
      · rw [getSeg_set_ne hij]

theorem retimeAux_not_mem :
    ∀ (l : List Nat) (heap : List Segment) (c : Int) (x : Nat), x ∉ l →
      getSeg (retimeAux heap c l).1 x = getSeg heap x
  | [], heap, c, x, _ => rfl
  | sid :: rest, heap, c, x, hx => by
    cases h : (getSeg heap sid).target_timerange with
    | none => simp [retimeAux, h]
    | some tr =>
      simp only [retimeAux, h]
      rw [retimeAux_not_mem rest _ _ _ (fun hr => hx (List.mem_cons_of_mem sid hr))]
      exact getSeg_set_ne (fun he => hx (by rw [← he]; exact List.mem_cons_self sid rest)) _

theorem retimeAux_spec :
    ∀ (l : List Nat) (heap : List Segment) (c : Int), l.Nodup →
      (∀ sid ∈ l, (getSeg heap sid).target_timerange.isSome) →
      (retimeAux heap c l).2 = none ∧
        ∀ k, k < l.length →
          startOf (getSeg (retimeAux heap c l).1 (l.getD k 0)) =
            some (c + sumDur heap (l.take k))
  | [], heap, c, _, _ => ⟨rfl, fun k hk => absurd hk (by simp)⟩
  | sid :: rest, heap, c, hnd, hsome => by
    obtain ⟨tr, htr⟩ := Option.isSome_iff_exists.mp
      (hsome sid (List.mem_cons_self sid rest))
    have hlen : sid < heap.length := by
      by_contra hno
      rw [getSeg_oob (le_of_not_lt hno)] at htr
      cases htr
    have hsid_notmem : sid ∉ rest := (List.nodup_cons.mp hnd).1
    have hsome₂ : ∀ x ∈ rest,
        (getSeg (heap.set sid ⟨some ⟨some c, tr.duration⟩, (getSeg heap sid).payload⟩) x).target_timerange.isSome := by
      intro x hx
      rw [getSeg_set_ne (fun he => hsid_notmem (by rw [he]; exact hx))]
      exact hsome x (List.mem_cons_of_mem sid hx)
    obtain ⟨ih1, ih2⟩ := retimeAux_spec rest
      (heap.set sid ⟨some ⟨some c, tr.duration⟩, (getSeg heap sid).payload⟩)
      (c + segDuration (getSeg heap sid)) (List.nodup_cons.mp hnd).2 hsome₂
    constructor
    · simp only [retimeAux, htr]
      exact ih1
    · intro k hk
      simp only [retimeAux, htr]
      match k with
      | 0 =>
        rw [List.getD_cons_zero,
          retimeAux_not_mem rest _ _ _ hsid_notmem,
          getSeg_set_self hlen]
        simp [startOf, sumDur]
      | k + 1 =>
        rw [List.getD_cons_succ, ih2 k (by simpa using hk)]
        have htake : (sid :: rest).take (k + 1) = sid :: rest.take k := by
          rw [List.take_cons (Nat.succ_pos k), Nat.succ_sub_one]
        rw [htake, sumDur_cons]
        have hdur : sumDur
            (heap.set sid ⟨some ⟨some c, tr.duration⟩, (getSeg heap sid).payload⟩)
            (rest.take k) = sumDur heap (rest.take k) := by
          unfold sumDur
          refine congrArg List.sum (List.map_congr_left ?_)
          intro x hx
          rw [getSeg_set_ne
            (fun he => hsid_notmem (by rw [he]; exact List.mem_of_mem_take hx))]
        rw [hdur]
        congr 1
        ring

/-! ### Sorting wrappers -/

theorem sortAsc_perm (l : List Nat) : (sortAsc l).Perm l :=
  List.perm_insertionSort _ l

theorem sortAsc_sorted (l : List Nat) : List.Sorted (fun a b => a ≤ b) (sortAsc l) :=
  List.sorted_insertionSort _ l

theorem sortDesc_perm (l : List Int) : (sortDesc l).Perm l :=
  List.perm_insertionSort _ l

theorem sortDesc_sorted (l : List Int) : List.Sorted (fun a b => a ≥ b) (sortDesc l) :=
  List.sorted_insertionSort _ l

/-! ### Collection (lines 128-132) -/

theorem filter_eq_map_range {α : Type} (p : α → Bool) (d : α) :
    ∀ l : List α, l.filter p =
      ((List.range l.length).filter (fun j => p (l.getD j d))).map (fun j => l.getD j d)
  | [] => rfl
  | x :: xs => by
    have hr : List.range (x :: xs).length = 0 :: (List.range xs.length).map Nat.succ := by
      simpa using List.range_succ_eq_map xs.length
    rw [List.filter_cons, hr, List.filter_cons]
    simp only [List.getD_cons_zero]
    have hcomp : (fun j => p ((x :: xs).getD j d)) ∘ Nat.succ =
        fun j => p (xs.getD j d) := by
      funext a
      simp [Function.comp, List.getD_cons_succ]
    have hcomp₂ : (fun j => (x :: xs).getD j d) ∘ Nat.succ =
        fun j => xs.getD j d := by
      funext a
      simp [Function.comp, List.getD_cons_succ]
    have hfilter : ((List.range xs.length).map Nat.succ).filter
        (fun j => p ((x :: xs).getD j d)) =
        ((List.range xs.length).filter (fun j => p (xs.getD j d))).map Nat.succ := by
      rw [List.filter_map, hcomp]
    have hmap : ∀ S : List Nat,
        (S.map Nat.succ).map (fun j => (x :: xs).getD j d) =
          S.map (fun j => xs.getD j d) := by
      intro S
      rw [List.map_map, hcomp₂]
    by_cases hp : p x = true
    · rw [if_pos hp, if_pos hp, hfilter, List.map_cons, hmap,
        List.getD_cons_zero, ← filter_eq_map_range p d xs]
    · rw [if_neg hp, if_neg hp, hfilter, hmap, ← filter_eq_map_range p d xs]

theorem collect_eq_map (heap : List Segment) (ids : List Nat) (ws we : Int) :
    collectInRange heap ids ws we =
      (collectedSlots heap ids ws we).map (fun j => ids.getD j 0) :=
  filter_eq_map_range _ 0 ids

theorem collectedSlots_sorted (heap : List Segment) (ids : List Nat) (ws we : Int) :
    List.Pairwise (· < ·) (collectedSlots heap ids ws we) :=
  List.Pairwise.filter _ (List.pairwise_lt_range _)

theorem collectedSlots_mem (heap : List Segment) (ids : List Nat) (ws we : Int)
    (j : Nat) :
    j ∈ collectedSlots heap ids ws we ↔
      j < ids.length ∧ containsSeg ws we (getSeg heap (ids.getD j 0)) = true := by
  simp [collectedSlots, List.mem_filter, List.mem_range]

theorem collectInRange_mem (heap : List Segment) (ids : List Nat) (ws we : Int)
    (sid : Nat) :
    sid ∈ collectInRange heap ids ws we ↔
      sid ∈ ids ∧ containsSeg ws we (getSeg heap sid) = true := by
  simp [collectInRange, List.mem_filter]

/-! ### Index search (line 151) -/

theorem pyIndex_some_spec {heap : List Segment} {ids : List Nat} {sid j : Nat}
    (h : pyIndex heap ids sid = some j) :
    j < ids.length ∧ getSeg heap (ids.getD j 0) = getSeg heap sid ∧
      ∀ m, m < j → getSeg heap (ids.getD m 0) ≠ getSeg heap sid := by
  obtain ⟨h1, h2, h3⟩ := findIdx?_zero_spec 0 h
  refine ⟨h1, by simpa using h2, ?_⟩
  intro m hm
  have := h3 m hm
  simpa using this

theorem pyIndex_isSome_of_mem {heap : List Segment} {ids : List Nat} {sid : Nat}
    (h : sid ∈ ids) : (pyIndex heap ids sid).isSome :=
  findIdx?_isSome_of_mem h (by simp) 0

theorem mapOption_eq_map {α β : Type} (f : α → Option β) (d : β) :
    ∀ {l : List α}, (∀ x ∈ l, (f x).isSome) →
      mapOption f l = some (l.map (fun x => (f x).getD d))
  | [], _ => rfl
  | x :: xs, h => by
    obtain ⟨b, hb⟩ := Option.isSome_iff_exists.mp (h x (List.mem_cons_self x xs))
    rw [mapOption, hb,
      mapOption_eq_map f d (fun y hy => h y (List.mem_cons_of_mem x hy))]
    simp [hb]

/-! ### The placement bijection of a window pass -/

theorem pyIndex_slot_id {heap : List Segment} {ids : List Nat} {ws we : Int}
    (hval : ((collectInRange heap ids ws we).map (getSeg heap)).Nodup) :
    ∀ j ∈ collectedSlots heap ids ws we, pyIndex heap ids (ids.getD j 0) = some j := by
  have hval₂ : ((collectedSlots heap ids ws we).map
      (fun i => getSeg heap (ids.getD i 0))).Nodup := by
    rw [collect_eq_map, List.map_map] at hval
    exact hval
  intro j hj
  obtain ⟨hjlen, hjcont⟩ := (collectedSlots_mem heap ids ws we j).mp hj
  have hsid_mem : ids.getD j 0 ∈ ids := by
    rw [List.getD_eq_getElem ids 0 hjlen]
    exact List.getElem_mem hjlen
  obtain ⟨j₂, hj₂⟩ := Option.isSome_iff_exists.mp
    (@pyIndex_isSome_of_mem heap ids _ hsid_mem)
  obtain ⟨h1, h2, _⟩ := pyIndex_some_spec hj₂
  have hj₂slots : j₂ ∈ collectedSlots heap ids ws we := by
    rw [collectedSlots_mem]
    exact ⟨h1, by rw [h2]; exact hjcont⟩
  have : j₂ = j := List.inj_on_of_nodup_map hval₂ hj₂slots hj h2
  rw [hj₂, this]

theorem idxs_eq_slots {heap : List Segment} {ids shuffled : List Nat} {ws we : Int}
    (hperm : shuffled.Perm (collectInRange heap ids ws we))
    (hval : ((collectInRange heap ids ws we).map (getSeg heap)).Nodup) :
    mapOption (pyIndex heap ids) shuffled =
        some (shuffled.map (fun sid => (pyIndex heap ids sid).getD 0)) ∧
      sortAsc (shuffled.map (fun sid => (pyIndex heap ids sid).getD 0)) =
        collectedSlots heap ids ws we := by
  have hmem : ∀ x ∈ shuffled, x ∈ ids := by
    intro x hx
    exact ((collectInRange_mem heap ids ws we x).mp (hperm.mem_iff.mp hx)).1
  have hall : ∀ x ∈ shuffled, (pyIndex heap ids x).isSome := by
    intro x hx
    exact pyIndex_isSome_of_mem (hmem x hx)
  refine ⟨mapOption_eq_map _ 0 hall, ?_⟩
  have hsirmap : (collectInRange heap ids ws we).map
      (fun sid => (pyIndex heap ids sid).getD 0) = collectedSlots heap ids ws we := by
    rw [collect_eq_map, List.map_map]
    have : ∀ j ∈ collectedSlots heap ids ws we,
        ((fun sid => (pyIndex heap ids sid).getD 0) ∘ fun j => ids.getD j 0) j = id j := by
      intro j hj
      simp only [Function.comp, id]
      rw [pyIndex_slot_id hval j hj]
      rfl
    rw [List.map_congr_left this, List.map_id]
  have hperm₂ : (sortAsc (shuffled.map (fun sid => (pyIndex heap ids sid).getD 0))).Perm
      (collectedSlots heap ids ws we) := by
    refine (sortAsc_perm _).trans ?_
    rw [← hsirmap]
    exact hperm.map _
  refine List.eq_of_perm_of_sorted hperm₂ (sortAsc_sorted _) ?_
  exact (collectedSlots_sorted heap ids ws we).imp le_of_lt

theorem collectedSlots_bound (heap : List Segment) (ids : List Nat) (ws we : Int) :
    ∀ x ∈ collectedSlots heap ids ws we, x < ids.length := by
  intro x hx
  exact ((collectedSlots_mem heap ids ws we x).mp hx).1

theorem place_map_slots {heap : List Segment} {ids shuffled : List Nat} {ws we : Int}
    (hperm : shuffled.Perm (collectInRange heap ids ws we)) :
    (collectedSlots heap ids ws we).map
        (fun j => (place ids (collectedSlots heap ids ws we) shuffled).getD j 0) =
      shuffled := by
  have hlen : (collectedSlots heap ids ws we).length = shuffled.length := by
    rw [hperm.length_eq, collect_eq_map, List.length_map]
  refine List.ext_getElem (by rw [List.length_map, hlen]) ?_
  intro i h1 h2
  rw [List.getElem_map]
  have hplace := place_getD_sorted (collectedSlots heap ids ws we) ids shuffled
    (collectedSlots_sorted heap ids ws we) (collectedSlots_bound heap ids ws we)
    i (by rw [List.length_map] at h1; exact h1) h2
  rw [List.getD_eq_getElem (collectedSlots heap ids ws we) 0
      (by rw [List.length_map] at h1; exact h1),
    List.getD_eq_getElem shuffled 0 h2] at hplace
  exact hplace

/-! ### Window-pass shapes -/

theorem processPair_skip (pick : List Nat → List Nat) (st : St) {ws we : Int}
    (h : ws ≥ we) : processPair pick st ws we = (st, none) := by
  unfold processPair
  rw [if_pos h]

theorem processPair_empty (pick : List Nat → List Nat) (st : St) {ws we : Int}
    (hlt : ¬ ws ≥ we) (h : collectInRange st.heap st.ids ws we = []) :
    processPair pick st ws we = (st, none) := by
  unfold processPair
  rw [if_neg hlt, h]
  rfl

theorem processPair_main {pick : List Nat → List Nat} {st : St} {ws we : Int}
    (hlt : ¬ ws ≥ we)
    (hperm : (pick (collectInRange st.heap st.ids ws we)).Perm
      (collectInRange st.heap st.ids ws we))
    (hval : ((collectInRange st.heap st.ids ws we).map (getSeg st.heap)).Nodup)
    (hne : collectInRange st.heap st.ids ws we ≠ []) :
    processPair pick st ws we =
      (⟨(retimeAux st.heap ws (pick (collectInRange st.heap st.ids ws we))).1,
        place st.ids (collectedSlots st.heap st.ids ws we)
          (pick (collectInRange st.heap st.ids ws we))⟩,
       (retimeAux st.heap ws (pick (collectInRange st.heap st.ids ws we))).2) := by
  obtain ⟨hmap, hsort⟩ := idxs_eq_slots hperm hval
  have hempty : (collectInRange st.heap st.ids ws we).isEmpty = false := by
    cases h : collectInRange st.heap st.ids ws we
    · exact absurd h hne
    · rfl
  unfold processPair
  rw [if_neg hlt]
  simp only [hempty, Bool.false_eq_true, if_false, hmap, hsort]

theorem segStart_eq_getD_startOf (s : Segment) : segStart s = (startOf s).getD 0 :=
  rfl

theorem segDuration_eq_durData (s : Segment) :
    segDuration s = ((durData s).1.getD none).getD 0 := by
  cases h : s.target_timerange <;> simp [segDuration, durData, h]

theorem sumDur_take_succ (heap : List Segment) (l : List Nat) (k : Nat)
    (hk : k < l.length) :
    sumDur heap (l.take (k + 1)) =
      sumDur heap (l.take k) + segDuration (getSeg heap (l.getD k 0)) := by
  unfold sumDur
  rw [List.map_take, List.map_take,
    List.sum_take_succ _ k (by rw [List.length_map]; exact hk),
    List.getElem_map, List.getD_eq_getElem l 0 hk]

/-! ### Claim C1 -/

/-- C1 counterexample.  The claim quantifies over the state after the whole
shuffle operation completes, and fails there on two concrete runs.  First
conjunct: `dupDoc` has two structurally equal segment dicts in its only
window [0, 1000]; `segments.index` finds slot 0 twice, placement writes
both permuted references into slot 0, and the first segment of the new
slot order ends with start 50, not window_start 0 — even for the identity
permutation.  Second conjunct: `stealDoc` has one zero-duration segment in
the first processed window [2000, 3000]; after its re-timing to start
2000 the second window [500, 2000] also contains it and re-times it to
500, so the first (and only) segment of the first window's slot order ends
with start 500, not 2000 — all segments pairwise distinct. -/
theorem c1_counterexample :
    (markerPairs (markersOf dupDoc) = [(0, 1000)] ∧
      (shuffleDraft idRnd dupDoc).2 = none ∧
      startOf (getSeg (shuffleDraft idRnd dupDoc).1.heap
          (((shuffleDraft idRnd dupDoc).1.tracks.getD 0 ⟨none, []⟩).segments.getD 0 0)) ≠
        some 0) ∧
    (markerPairs (markersOf stealDoc) = [(2000, 3000), (500, 2000)] ∧
      (shuffleDraft idRnd stealDoc).2 = none ∧
      startOf (getSeg (shuffleDraft idRnd stealDoc).1.heap
          (((shuffleDraft idRnd stealDoc).1.tracks.getD 0 ⟨none, []⟩).segments.getD 0 0)) ≠
        some 2000) := by
  decide

/-- C1 (amended): for any single window pass on a window with at least one
collected segment, provided the collected segments are pairwise
structurally distinct and each carries a `target_timerange` dict, the pass
completes without error; the new slot order (the contents of the occupied
slot set in ascending slot order) coincides with the permuted order; the
first segment of that order has `target_timerange.start = window_start`;
and for every adjacent pair in that order the later segment's start equals
the earlier segment's start plus the earlier segment's duration. -/
theorem c1_window_contiguity {pick : List Nat → List Nat} {st : St} {ws we : Int}
    (hlt : ws < we)
    (hperm : (pick (collectInRange st.heap st.ids ws we)).Perm
      (collectInRange st.heap st.ids ws we))
    (hval : ((collectInRange st.heap st.ids ws we).map (getSeg st.heap)).Nodup)
    (hne : collectInRange st.heap st.ids ws we ≠ [])
    (htr : ∀ sid ∈ collectInRange st.heap st.ids ws we,
      (getSeg st.heap sid).target_timerange.isSome) :
    (processPair pick st ws we).2 = none ∧
      (collectedSlots st.heap st.ids ws we).map
          (fun j => (processPair pick st ws we).1.ids.getD j 0) =
        pick (collectInRange st.heap st.ids ws we) ∧
      startOf (getSeg (processPair pick st ws we).1.heap
          ((pick (collectInRange st.heap st.ids ws we)).getD 0 0)) = some ws ∧
      ∀ k, k + 1 < (pick (collectInRange st.heap st.ids ws we)).length →
        startOf (getSeg (processPair pick st ws we).1.heap
            ((pick (collectInRange st.heap st.ids ws we)).getD (k + 1) 0)) =
          some (segStart (getSeg (processPair pick st ws we).1.heap
                ((pick (collectInRange st.heap st.ids ws we)).getD k 0)) +
            segDuration (getSeg (processPair pick st ws we).1.heap
              ((pick (collectInRange st.heap st.ids ws we)).getD k 0))) := by
  have hlt₂ : ¬ ws ≥ we := not_le.mpr hlt
  have hmain := processPair_main hlt₂ hperm hval hne
  have hnd : (pick (collectInRange st.heap st.ids ws we)).Nodup :=
    hperm.symm.nodup (List.Nodup.of_map _ hval)
  have htr₂ : ∀ sid ∈ pick (collectInRange st.heap st.ids ws we),
      (getSeg st.heap sid).target_timerange.isSome :=
    fun sid hsid => htr sid (hperm.mem_iff.mp hsid)
  obtain ⟨hok, hstarts⟩ :=
    retimeAux_spec (pick (collectInRange st.heap st.ids ws we)) st.heap ws hnd htr₂
  have hlen_pos : 0 < (pick (collectInRange st.heap st.ids ws we)).length := by
    rw [hperm.length_eq]
    exact List.length_pos.mpr hne
  refine ⟨?_, ?_, ?_, ?_⟩
  · rw [hmain]
    exact hok
  · rw [hmain]
    exact place_map_slots hperm
  · rw [hmain]
    have h0 := hstarts 0 hlen_pos
    simpa [sumDur] using h0
  · intro k hk
    rw [hmain]
    dsimp only
    have hnext := hstarts (k + 1) hk
    have hprev := hstarts k (by omega)
    rw [hnext, segStart_eq_getD_startOf, hprev]
    have hdur : segDuration (getSeg
        (retimeAux st.heap ws (pick (collectInRange st.heap st.ids ws we))).1
          ((pick (collectInRange st.heap st.ids ws we)).getD k 0)) =
        segDuration (getSeg st.heap
          ((pick (collectInRange st.heap st.ids ws we)).getD k 0)) := by
      rw [segDuration_eq_durData, retimeAux_durData, ← segDuration_eq_durData]
    rw [hdur, sumDur_take_succ st.heap _ k (by omega)]
    simp only [Option.getD_some]
    congr 1
    ring

/-- C1 witness: the amended theorem applied to a concrete two-segment
window pass with the reversed permutation. -/
theorem c1_window_contiguity_witness :
    ((0 : Int) < 1000 ∧
      ((revRnd 0) (collectInRange wSt.heap wSt.ids 0 1000)).Perm
        (collectInRange wSt.heap wSt.ids 0 1000) ∧
      ((collectInRange wSt.heap wSt.ids 0 1000).map (getSeg wSt.heap)).Nodup ∧
      collectInRange wSt.heap wSt.ids 0 1000 ≠ [] ∧
      (∀ sid ∈ collectInRange wSt.heap wSt.ids 0 1000,
        (getSeg wSt.heap sid).target_timerange.isSome)) ∧
    ((processPair (revRnd 0) wSt 0 1000).2 = none ∧
      (collectedSlots wSt.heap wSt.ids 0 1000).map
          (fun j => (processPair (revRnd 0) wSt 0 1000).1.ids.getD j 0) =
        (revRnd 0) (collectInRange wSt.heap wSt.ids 0 1000) ∧
      startOf (getSeg (processPair (revRnd 0) wSt 0 1000).1.heap
          (((revRnd 0) (collectInRange wSt.heap wSt.ids 0 1000)).getD 0 0)) =
        some 0 ∧
      ∀ k, k + 1 < ((revRnd 0) (collectInRange wSt.heap wSt.ids 0 1000)).length →
        startOf (getSeg (processPair (revRnd 0) wSt 0 1000).1.heap
            (((revRnd 0) (collectInRange wSt.heap wSt.ids 0 1000)).getD (k + 1) 0)) =
          some (segStart (getSeg (processPair (revRnd 0) wSt 0 1000).1.heap
                (((revRnd 0) (collectInRange wSt.heap wSt.ids 0 1000)).getD k 0)) +
            segDuration (getSeg (processPair (revRnd 0) wSt 0 1000).1.heap
              (((revRnd 0) (collectInRange wSt.heap wSt.ids 0 1000)).getD k 0)))) :=
  ⟨⟨by decide, by decide, by decide, by decide, by decide⟩,
    c1_window_contiguity (by decide) (by decide) (by decide) (by decide) (by decide)⟩

/-! ### Claim C2 -/

theorem processPair_run {pick : List Nat → List Nat} {st : St} {ws we : Int}
    (hlt : ¬ ws ≥ we) (hne : collectInRange st.heap st.ids ws we ≠ [])
    {idxs : List Nat}
    (hmap : mapOption (pyIndex st.heap st.ids)
      (pick (collectInRange st.heap st.ids ws we)) = some idxs) :
    processPair pick st ws we =
      (⟨(retimeAux st.heap ws (pick (collectInRange st.heap st.ids ws we))).1,
        place st.ids (sortAsc idxs) (pick (collectInRange st.heap st.ids ws we))⟩,
       (retimeAux st.heap ws (pick (collectInRange st.heap st.ids ws we))).2) := by
  have hempty : (collectInRange st.heap st.ids ws we).isEmpty = false := by
    cases h : collectInRange st.heap st.ids ws we
    · exact absurd h hne
    · rfl
  unfold processPair
  rw [if_neg hlt]
  simp only [hempty, Bool.false_eq_true, if_false, hmap]

theorem mem_idxs_slots {heap : List Segment} {ids shuffled idxs : List Nat}
    {ws we : Int}
    (hsub : ∀ s ∈ shuffled, s ∈ collectInRange heap ids ws we)
    (hmap : mapOption (pyIndex heap ids) shuffled = some idxs) :
    ∀ x ∈ idxs, x ∈ collectedSlots heap ids ws we := by
  intro x hx
  obtain ⟨hlen, hpoint⟩ := mapOption_spec 0 0 hmap
  obtain ⟨k, hk, hkx⟩ := List.mem_iff_getElem.mp hx
  have hk₂ : k < shuffled.length := by rw [← hlen]; exact hk
  have hpy := hpoint k hk₂
  rw [List.getD_eq_getElem idxs 0 hk, hkx] at hpy
  obtain ⟨hx1, hx2, _⟩ := pyIndex_some_spec hpy
  have hsmem : shuffled.getD k 0 ∈ shuffled := by
    rw [List.getD_eq_getElem shuffled 0 hk₂]
    exact List.getElem_mem hk₂
  have hcont := ((collectInRange_mem heap ids ws we _).mp (hsub _ hsmem)).2
  rw [collectedSlots_mem]
  exact ⟨hx1, by rw [hx2]; exact hcont⟩

/-- C2: for any window pass, the set of slot indices of the target track
occupied by collected segments is the same before and after the pass:
the array keeps its length, and a slot holds a collected segment after the
pass exactly when it held one before (placement writes the permuted
collected references into the occupied slot set sorted ascending, and no
other slot). -/
theorem c2_slot_set_invariance {pick : List Nat → List Nat} {st : St} {ws we : Int}
    (hperm : (pick (collectInRange st.heap st.ids ws we)).Perm
      (collectInRange st.heap st.ids ws we)) :
    (processPair pick st ws we).1.ids.length = st.ids.length ∧
      ∀ j, j < st.ids.length →
        ((processPair pick st ws we).1.ids.getD j 0 ∈
            collectInRange st.heap st.ids ws we ↔
          st.ids.getD j 0 ∈ collectInRange st.heap st.ids ws we) := by
  by_cases hge : ws ≥ we
  · rw [processPair_skip pick st hge]
    exact ⟨rfl, fun j _ => Iff.rfl⟩
  by_cases hsir : collectInRange st.heap st.ids ws we = []
  · rw [processPair_empty pick st hge hsir]
    exact ⟨rfl, fun j _ => Iff.rfl⟩
  have hsub : ∀ s ∈ pick (collectInRange st.heap st.ids ws we),
      s ∈ collectInRange st.heap st.ids ws we :=
    fun s hs => hperm.mem_iff.mp hs
  have hall : ∀ s ∈ pick (collectInRange st.heap st.ids ws we),
      (pyIndex st.heap st.ids s).isSome :=
    fun s hs =>
      pyIndex_isSome_of_mem ((collectInRange_mem st.heap st.ids ws we s).mp
        (hsub s hs)).1
  have hmap := mapOption_eq_map (pyIndex st.heap st.ids) 0 hall
  rw [processPair_run hge hsir hmap]
  dsimp only
  refine ⟨place_length _ _ _, ?_⟩
  intro j hj
  by_cases hjmem : j ∈ sortAsc ((pick (collectInRange st.heap st.ids ws we)).map
      (fun sid => (pyIndex st.heap st.ids sid).getD 0))
  · have hjslots := mem_idxs_slots hsub hmap j ((sortAsc_perm _).mem_iff.mp hjmem)
    obtain ⟨hjlen, hjcont⟩ := (collectedSlots_mem st.heap st.ids ws we j).mp hjslots
    have hrhs : st.ids.getD j 0 ∈ collectInRange st.heap st.ids ws we := by
      rw [collectInRange_mem]
      refine ⟨?_, hjcont⟩
      rw [List.getD_eq_getElem st.ids 0 hj]
      exact List.getElem_mem hj
    have hlhs : (place st.ids
        (sortAsc ((pick (collectInRange st.heap st.ids ws we)).map
          (fun sid => (pyIndex st.heap st.ids sid).getD 0)))
        (pick (collectInRange st.heap st.ids ws we))).getD j 0 ∈
        collectInRange st.heap st.ids ws we := by
      rcases place_getD_or (sortAsc ((pick (collectInRange st.heap st.ids ws we)).map
          (fun sid => (pyIndex st.heap st.ids sid).getD 0)))
          st.ids (pick (collectInRange st.heap st.ids ws we)) j 0 with h | h
      · rw [h]
        exact hrhs
      · exact hsub _ h
    exact iff_of_true hlhs hrhs
  · rw [place_getD_not_mem _ _ _ _ _ hjmem]

/-- C2 witness: the theorem applied to a concrete two-segment window pass
with the reversed permutation. -/
theorem c2_slot_set_invariance_witness :
    (((revRnd 0) (collectInRange wSt.heap wSt.ids 0 1000)).Perm
        (collectInRange wSt.heap wSt.ids 0 1000)) ∧
      ((processPair (revRnd 0) wSt 0 1000).1.ids.length = wSt.ids.length ∧
        ∀ j, j < wSt.ids.length →
          ((processPair (revRnd 0) wSt 0 1000).1.ids.getD j 0 ∈
              collectInRange wSt.heap wSt.ids 0 1000 ↔
            wSt.ids.getD j 0 ∈ collectInRange wSt.heap wSt.ids 0 1000)) :=
  ⟨by decide, c2_slot_set_invariance (by decide)⟩

/-! ### Claim C3 -/

theorem markerPairs_length : ∀ m : List Int, (markerPairs m).length = m.length / 2
  | [] => rfl
  | [_] => by
    simp [markerPairs]
  | _ :: _ :: rest => by
    rw [markerPairs, List.length_cons, markerPairs_length rest]
    simp only [List.length_cons]
    omega

theorem markerPairs_getD : ∀ (m : List Int) (p : Nat), 2 * p + 1 < m.length →
    (markerPairs m).getD p (0, 0) = (m.getD (2 * p + 1) 0, m.getD (2 * p) 0)
  | [], _, h => absurd h (by simp)
  | [_], _, h => by
    simp only [List.length_singleton] at h
    omega
  | x :: y :: rest, 0, _ => by
    rw [markerPairs]
    rfl
  | x :: y :: rest, p + 1, h => by
    rw [markerPairs, List.getD_cons_succ,
      markerPairs_getD rest p (by simp only [List.length_cons] at h; omega)]
    have h1 : 2 * (p + 1) + 1 = 2 * p + 1 + 1 + 1 := by ring
    have h2 : 2 * (p + 1) = 2 * p + 1 + 1 := by ring
    rw [h1, h2, List.getD_cons_succ, List.getD_cons_succ,
      List.getD_cons_succ, List.getD_cons_succ]

/-- C3: the marker list is the projection of `time_marks.mark_items` to
`time_range.start` sorted descending (a permutation of the projection,
sorted by ≥); the pair list takes markers two at a time from index 0 and
ignores an unpaired trailing marker (`⌊n / 2⌋` pairs); pair `p` has
`window_start = markers[2p+1]` and `window_end = markers[2p]`; and a pair
with `window_start ≥ window_end` is skipped as a no-op on the state. -/
theorem c3_marker_pairing (d : Document) :
    (markersOf d).Perm (markItemsOf d) ∧
      List.Sorted (fun a b => a ≥ b) (markersOf d) ∧
      (∀ m : List Int, (markerPairs m).length = m.length / 2) ∧
      (∀ (m : List Int) (p : Nat), 2 * p + 1 < m.length →
        (markerPairs m).getD p (0, 0) = (m.getD (2 * p + 1) 0, m.getD (2 * p) 0)) ∧
      (∀ (pick : List Nat → List Nat) (st : St) (ws we : Int), ws ≥ we →
        processPair pick st ws we = (st, none)) :=
  ⟨sortDesc_perm _, sortDesc_sorted _, markerPairs_length, markerPairs_getD,
    fun pick st _ _ h => processPair_skip pick st h⟩

/-- C3 witness: the theorem instantiated on the spec's four-marker example
document and on a degenerate pair with equal endpoints. -/
theorem c3_marker_pairing_witness :
    (markersOf exDoc).Perm (markItemsOf exDoc) ∧
      (markerPairs (markersOf exDoc)).length = 2 ∧
      2 * 0 + 1 < (markersOf exDoc).length ∧
      (markerPairs (markersOf exDoc)).getD 0 (0, 0) = (6000, 9000) ∧
      (5 : Int) ≥ 3 ∧
      processPair (idRnd 0) wSt 5 3 = (wSt, none) := by
  refine ⟨(c3_marker_pairing exDoc).1, ?_, by decide, ?_, by decide, ?_⟩
  · rw [(c3_marker_pairing exDoc).2.2.1 (markersOf exDoc)]
    decide
  · rw [(c3_marker_pairing exDoc).2.2.2.1 (markersOf exDoc) 0 (by decide)]
    decide
  · exact (c3_marker_pairing exDoc).2.2.2.2 (idRnd 0) wSt 5 3 (by decide)

/-! ### Claim C4 -/

theorem foldl_maxStep_mem : ∀ (vs : List (Nat × Track)) (v : Nat × Track),
    vs.foldl maxStep v = v ∨ vs.foldl maxStep v ∈ vs
  | [], _ => Or.inl rfl
  | x :: xs, v => by
    rw [List.foldl_cons]
    rcases foldl_maxStep_mem xs (maxStep v x) with h | h
    · rw [h]
      unfold maxStep
      by_cases hc : x.2.segments.length > v.2.segments.length
      · rw [if_pos hc]
        exact Or.inr (List.mem_cons_self x xs)
      · rw [if_neg hc]
        exact Or.inl rfl
    · exact Or.inr (List.mem_cons_of_mem x h)

theorem maxStep_le (v x : Nat × Track) :
    v.2.segments.length ≤ (maxStep v x).2.segments.length ∧
      x.2.segments.length ≤ (maxStep v x).2.segments.length := by
  unfold maxStep
  by_cases hc : x.2.segments.length > v.2.segments.length
  · rw [if_pos hc]
    exact ⟨le_of_lt hc, le_refl _⟩
  · rw [if_neg hc]
    exact ⟨le_refl _, le_of_not_lt hc⟩

theorem foldl_maxStep_le : ∀ (vs : List (Nat × Track)) (v : Nat × Track),
    ∀ y ∈ v :: vs, y.2.segments.length ≤ (vs.foldl maxStep v).2.segments.length
  | [], v => by
    intro y hy
    rw [List.mem_singleton.mp hy]
    exact le_refl _
  | x :: xs, v => by
    intro y hy
    rw [List.foldl_cons]
    have hstep := maxStep_le v x
    have ih := foldl_maxStep_le xs (maxStep v x)
    rcases List.mem_cons.mp hy with rfl | hy₂
    · exact le_trans hstep.1 (ih _ (List.mem_cons_self _ xs))
    rcases List.mem_cons.mp hy₂ with rfl | hy₃
    · exact le_trans hstep.2 (ih _ (List.mem_cons_self _ xs))
    · exact ih y (List.mem_cons_of_mem _ hy₃)

theorem foldl_maxStep_split : ∀ (vs : List (Nat × Track)) (v : Nat × Track),
    ∃ pre post, v :: vs = pre ++ (vs.foldl maxStep v) :: post ∧
      ∀ y ∈ pre, y.2.segments.length < (vs.foldl maxStep v).2.segments.length
  | [], v => ⟨[], [], rfl, by simp⟩
  | x :: xs, v => by
    rw [List.foldl_cons]
    obtain ⟨pre, post, heq, hlt⟩ := foldl_maxStep_split xs (maxStep v x)
    by_cases hc : x.2.segments.length > v.2.segments.length
    · have hmx : maxStep v x = x := by
        unfold maxStep
        rw [if_pos hc]
      rw [hmx] at heq hlt ⊢
      refine ⟨v :: pre, post, ?_, ?_⟩
      · rw [List.cons_append, ← heq]
      · intro y hy
        rcases List.mem_cons.mp hy with rfl | hy₂
        · exact lt_of_lt_of_le hc (foldl_maxStep_le xs x x (List.mem_cons_self x xs))
        · exact hlt y hy₂
    · have hmx : maxStep v x = v := by
        unfold maxStep
        rw [if_neg hc]
      rw [hmx] at heq hlt ⊢
      cases pre with
      | nil =>
        rw [List.nil_append] at heq
        injection heq with hv hpost
        refine ⟨[], x :: post, ?_, by simp⟩
        rw [List.nil_append, ← hv, ← hpost]
      | cons p ps =>
        rw [List.cons_append] at heq
        injection heq with hpv hxs
        refine ⟨v :: x :: ps, post, ?_, ?_⟩
        · rw [List.cons_append, List.cons_append, ← hxs]
        · intro y hy
          have hvlt : v.2.segments.length < (xs.foldl maxStep v).2.segments.length := by
            have hp := hlt p (List.mem_cons_self p ps)
            rw [← hpv] at hp
            exact hp
          rcases List.mem_cons.mp hy with rfl | hy₂
          · exact hvlt
          rcases List.mem_cons.mp hy₂ with rfl | hy₃
          · exact lt_of_le_of_lt (le_of_not_lt hc) hvlt
          · exact hlt y (List.mem_cons_of_mem p hy₃)

/-- C4: with an empty `tracks` list selection fails with the no-tracks
error; with tracks but no video track having a non-empty segment list it
fails with the no-video-track error; otherwise the selected (index, track)
pair is a qualifying entry whose segment count is maximal, and every
qualifying entry listed before it has a strictly smaller count (Python's
`max` keeps the first of equals); on counts [3, 7, 2] with only the 7- and
2-count tracks of type video, the 7-segment track is selected. -/
theorem c4_track_selection :
    selectTarget [] = .error .noTracks ∧
      (∀ tracks : List Track, tracks ≠ [] →
        tracks.enum.filter (fun it => isVideoWithSegs it.2) = [] →
        selectTarget tracks = .error .noVideoTrack) ∧
      (∀ (tracks : List Track) (ti : Nat) (tt : Track),
        selectTarget tracks = .ok (ti, tt) →
        ((ti, tt) ∈ tracks.enum.filter (fun it => isVideoWithSegs it.2) ∧
          (∀ y ∈ tracks.enum.filter (fun it => isVideoWithSegs it.2),
            y.2.segments.length ≤ tt.segments.length)) ∧
          ∃ pre post, tracks.enum.filter (fun it => isVideoWithSegs it.2) =
              pre ++ (ti, tt) :: post ∧
            ∀ y ∈ pre, y.2.segments.length < tt.segments.length) ∧
      selectTarget
          [⟨some textTag, [20, 21, 22]⟩,
           ⟨some videoTag, [0, 1, 2, 3, 4, 5, 6]⟩,
           ⟨some videoTag, [7, 8]⟩] =
        .ok (1, ⟨some videoTag, [0, 1, 2, 3, 4, 5, 6]⟩) := by
  refine ⟨rfl, ?_, ?_, rfl⟩
  · intro tracks hne hfil
    unfold selectTarget
    rw [if_neg (by simpa using hne), hfil]
  · intro tracks ti tt h
    unfold selectTarget at h
    by_cases hniltr : tracks.isEmpty
    · rw [if_pos hniltr] at h
      cases h
    rw [if_neg hniltr] at h
    cases hfil : tracks.enum.filter (fun it => isVideoWithSegs it.2) with
    | nil =>
      rw [hfil] at h
      cases h
    | cons v vs =>
      rw [hfil] at h
      injection h with h
      refine ⟨⟨?_, ?_⟩, ?_⟩
      · rcases foldl_maxStep_mem vs v with hm | hm
        · rw [h] at hm
          rw [← hm]
          exact List.mem_cons_self (ti, tt) vs
        · rw [h] at hm
          exact List.mem_cons_of_mem v hm
      · intro y hy
        have := foldl_maxStep_le vs v y hy
        rw [h] at this
        exact this
      · obtain ⟨pre, post, heq, hlt⟩ := foldl_maxStep_split vs v
        rw [h] at heq hlt
        exact ⟨pre, post, heq, hlt⟩

/-- C4 witness: the selection part of the theorem applied to the spec
example document (a 3-segment text track and a 5-segment video track). -/
theorem c4_track_selection_witness :
    selectTarget exDoc.tracks = .ok (1, ⟨some videoTag, [0, 1, 2, 3, 4]⟩) ∧
      (((1, (⟨some videoTag, [0, 1, 2, 3, 4]⟩ : Track)) ∈
          exDoc.tracks.enum.filter (fun it => isVideoWithSegs it.2) ∧
        (∀ y ∈ exDoc.tracks.enum.filter (fun it => isVideoWithSegs it.2),
          y.2.segments.length ≤
            (⟨some videoTag, [0, 1, 2, 3, 4]⟩ : Track).segments.length)) ∧
        ∃ pre post, exDoc.tracks.enum.filter (fun it => isVideoWithSegs it.2) =
            pre ++ (1, (⟨some videoTag, [0, 1, 2, 3, 4]⟩ : Track)) :: post ∧
          ∀ y ∈ pre, y.2.segments.length <
            (⟨some videoTag, [0, 1, 2, 3, 4]⟩ : Track).segments.length) :=
  ⟨rfl,
    c4_track_selection.2.2.1 exDoc.tracks 1 ⟨some videoTag, [0, 1, 2, 3, 4]⟩
      rfl⟩

/-! ### Claim C5 -/

/-- C5: a document whose marker list has fewer than two entries (in
particular when `time_marks` or `mark_items` is missing the list is empty)
makes the shuffle return the insufficient-markers error with the in-memory
document exactly as it was given — the guard runs before any write. -/
theorem c5_marker_guard (rnd : Nat → List Nat → List Nat) {d : Document}
    (h : (markersOf d).length < 2) :
    shuffleDraft rnd d = (d, some .insufficientMarkers) ∧
      (markersOf d).length = (markItemsOf d).length ∧
      (d.time_marks = none → markItemsOf d = []) ∧
      (∀ tm : TimeMarks, tm.mark_items = none → d.time_marks = some tm →
        markItemsOf d = []) := by
  refine ⟨?_, ?_, ?_, ?_⟩
  · unfold shuffleDraft
    rw [if_pos h]
  · exact (sortDesc_perm _).length_eq
  · intro h₂
    unfold markItemsOf
    rw [h₂]
  · intro tm h₂ h₃
    unfold markItemsOf
    rw [h₃]
    show tm.mark_items.getD [] = []
    rw [h₂]
    rfl

/-- C5 witness: the theorem applied to a one-marker document. -/
theorem c5_marker_guard_witness :
    (markersOf oneMarkDoc).length < 2 ∧
      shuffleDraft idRnd oneMarkDoc = (oneMarkDoc, some .insufficientMarkers) :=
  ⟨by decide, (c5_marker_guard idRnd (by decide)).1⟩

/-! ### Claim C7 -/

theorem processPair_notfound {pick : List Nat → List Nat} {st : St} {ws we : Int}
    (hlt : ¬ ws ≥ we) (hne : collectInRange st.heap st.ids ws we ≠ [])
    (hmap : mapOption (pyIndex st.heap st.ids)
      (pick (collectInRange st.heap st.ids ws we)) = none) :
    processPair pick st ws we = (st, some .indexNotFound) := by
  have hempty : (collectInRange st.heap st.ids ws we).isEmpty = false := by
    cases h : collectInRange st.heap st.ids ws we
    · exact absurd h hne
    · rfl
  unfold processPair
  rw [if_neg hlt]
  simp only [hempty, Bool.false_eq_true, if_false, hmap]

theorem processPair_durData (pick : List Nat → List Nat) (st : St) (ws we : Int) :
    (processPair pick st ws we).1.heap.length = st.heap.length ∧
      ∀ i, durData (getSeg (processPair pick st ws we).1.heap i) =
        durData (getSeg st.heap i) := by
  by_cases hge : ws ≥ we
  · rw [processPair_skip pick st hge]
    exact ⟨rfl, fun _ => rfl⟩
  by_cases hsir : collectInRange st.heap st.ids ws we = []
  · rw [processPair_empty pick st hge hsir]
    exact ⟨rfl, fun _ => rfl⟩
  cases hmap : mapOption (pyIndex st.heap st.ids)
      (pick (collectInRange st.heap st.ids ws we)) with
  | none =>
    rw [processPair_notfound hge hsir hmap]
    exact ⟨rfl, fun _ => rfl⟩
  | some idxs =>
    rw [processPair_run hge hsir hmap]
    exact ⟨retimeAux_length _ _ _, fun i => retimeAux_durData _ _ _ i⟩

theorem processPairs_durData (rnd : Nat → List Nat → List Nat) :
    ∀ (pairs : List (Int × Int)) (st : St) (k : Nat),
      (processPairs rnd st pairs k).1.heap.length = st.heap.length ∧
        ∀ i, durData (getSeg (processPairs rnd st pairs k).1.heap i) =
          durData (getSeg st.heap i)
  | [], _, _ => ⟨rfl, fun _ => rfl⟩
  | (ws, we) :: rest, st, k => by
    obtain ⟨h1, h2⟩ := processPair_durData (rnd k) st ws we
    cases hp : processPair (rnd k) st ws we with
    | mk st₂ err =>
      rw [hp] at h1 h2
      cases err with
      | none =>
        obtain ⟨ih1, ih2⟩ := processPairs_durData rnd rest st₂ (k + 1)
        refine ⟨?_, ?_⟩
        · rw [processPairs, hp]
          rw [ih1, h1]
        · intro i
          rw [processPairs, hp]
          rw [ih2 i, h2 i]
      | some e =>
        refine ⟨?_, ?_⟩
        · rw [processPairs, hp]
          exact h1
        · intro i
          rw [processPairs, hp]
          exact h2 i

theorem shuffleDraft_ok {rnd : Nat → List Nat → List Nat} {d : Document} {ti : Nat}
    {tt : Track} (hm : ¬ (markersOf d).length < 2)
    (hsel : selectTarget d.tracks = .ok (ti, tt)) :
    shuffleDraft rnd d =
      ({ d with
          heap := (processPairs rnd ⟨d.heap, tt.segments⟩
            (markerPairs (markersOf d)) 0).1.heap,
          tracks := d.tracks.set ti { tt with
            segments := (processPairs rnd ⟨d.heap, tt.segments⟩
              (markerPairs (markersOf d)) 0).1.ids } },
        (processPairs rnd ⟨d.heap, tt.segments⟩ (markerPairs (markersOf d)) 0).2) := by
  unfold shuffleDraft
  rw [if_neg hm, hsel]

theorem shuffleDraft_err {rnd : Nat → List Nat → List Nat} {d : Document} {e : Err}
    (hm : ¬ (markersOf d).length < 2) (hsel : selectTarget d.tracks = .error e) :
    shuffleDraft rnd d = (d, some e) := by
  unfold shuffleDraft
  rw [if_neg hm, hsel]

/-- C7: for every segment object of the document, the shuffle leaves the
presence of `target_timerange`, its `duration` field (including its
absence) and all non-timing content (`payload`) bit-identical, on every
path (success or raise): only `start` fields of timing records are ever
written. -/
theorem c7_duration_preservation (rnd : Nat → List Nat → List Nat) (d : Document) :
    (shuffleDraft rnd d).1.heap.length = d.heap.length ∧
      ∀ i, durData (getSeg (shuffleDraft rnd d).1.heap i) =
        durData (getSeg d.heap i) := by
  by_cases hm : (markersOf d).length < 2
  · have : shuffleDraft rnd d = (d, some .insufficientMarkers) := by
      unfold shuffleDraft
      rw [if_pos hm]
    rw [this]
    exact ⟨rfl, fun _ => rfl⟩
  cases hsel : selectTarget d.tracks with
  | error e =>
    rw [shuffleDraft_err hm hsel]
    exact ⟨rfl, fun _ => rfl⟩
  | ok pair =>
    rw [shuffleDraft_ok hm (by rw [hsel])]
    exact processPairs_durData rnd (markerPairs (markersOf d)) ⟨d.heap, pair.2.segments⟩ 0

/-! ### Claim C8 -/

/-- C8: the store step never runs on a failed run: whenever the operation
returns an error — load failures included — the file on storage holds
exactly what it held before; the file is rewritten only when the shuffle
step returns without error, and then with the shuffled document. -/
theorem top_parsed_some {rnd : Nat → List Nat → List Nat} {d : Document} {e : Err}
    (h : (shuffleDraft rnd d).2 = some e) :
    shuffle_segments_between_marker_pairs rnd (.parsed d) = (.parsed d, some e) := by
  have hpair : shuffleDraft rnd d = ((shuffleDraft rnd d).1, some e) := by
    rw [← h]
  show (match shuffleDraft rnd d with
    | (_, some e) => (LoadedFile.parsed d, some e)
    | (d₂, none) => (LoadedFile.parsed d₂, none)) = (LoadedFile.parsed d, some e)
  rw [hpair]

theorem top_parsed_none {rnd : Nat → List Nat → List Nat} {d : Document}
    (h : (shuffleDraft rnd d).2 = none) :
    shuffle_segments_between_marker_pairs rnd (.parsed d) =
      (.parsed (shuffleDraft rnd d).1, none) := by
  have hpair : shuffleDraft rnd d = ((shuffleDraft rnd d).1, none) := by
    rw [← h]
  show (match shuffleDraft rnd d with
    | (_, some e) => (LoadedFile.parsed d, some e)
    | (d₂, none) => (LoadedFile.parsed d₂, none)) =
    (LoadedFile.parsed (shuffleDraft rnd d).1, none)
  rw [hpair]

theorem c8_store_after_success (rnd : Nat → List Nat → List Nat) :
    (∀ file : LoadedFile,
      (shuffle_segments_between_marker_pairs rnd file).2.isSome →
        (shuffle_segments_between_marker_pairs rnd file).1 = file) ∧
      (shuffle_segments_between_marker_pairs rnd .missing).2 = some .notFound ∧
      (shuffle_segments_between_marker_pairs rnd .malformed).2 = some .formatError ∧
      (∀ d : Document, (shuffleDraft rnd d).2 = none →
        shuffle_segments_between_marker_pairs rnd (.parsed d) =
          (.parsed (shuffleDraft rnd d).1, none)) ∧
      (∀ d : Document, (markersOf d).length < 2 →
        shuffle_segments_between_marker_pairs rnd (.parsed d) =
          (.parsed d, some .insufficientMarkers)) := by
  refine ⟨?_, rfl, rfl, fun d h => top_parsed_none h, ?_⟩
  · intro file herr
    cases file with
    | missing => rfl
    | malformed => rfl
    | parsed d =>
      cases he : (shuffleDraft rnd d).2 with
      | none =>
        rw [top_parsed_none he] at herr
        simp at herr
      | some e =>
        rw [top_parsed_some he]
  · intro d hm
    have hdraft : shuffleDraft rnd d = (d, some .insufficientMarkers) := by
      unfold shuffleDraft
      rw [if_pos hm]
    exact top_parsed_some (by rw [hdraft])

/-- C8 witness: the theorem applied to a failing run (collected segment
with no `target_timerange` raising the key error: the stored file keeps
the original parsed document) and to a successful run on the example
document (the file is rewritten with the shuffled document). -/
theorem c8_store_after_success_witness :
    ((shuffle_segments_between_marker_pairs idRnd (.parsed missDoc)).2.isSome ∧
      (shuffle_segments_between_marker_pairs idRnd (.parsed missDoc)).1 =
        .parsed missDoc) ∧
      ((shuffleDraft revRnd exDoc).2 = none ∧
        shuffle_segments_between_marker_pairs revRnd (.parsed exDoc) =
          (.parsed (shuffleDraft revRnd exDoc).1, none)) ∧
      ((markersOf oneMarkDoc).length < 2 ∧
        shuffle_segments_between_marker_pairs idRnd (.parsed oneMarkDoc) =
          (.parsed oneMarkDoc, some .insufficientMarkers)) :=
  ⟨⟨by decide, (c8_store_after_success idRnd).1 (.parsed missDoc) (by decide)⟩,
    ⟨by decide, (c8_store_after_success revRnd).2.2.2.1 exDoc (by decide)⟩,
    ⟨by decide, (c8_store_after_success idRnd).2.2.2.2 oneMarkDoc (by decide)⟩⟩

/-! ### Claim C9 -/

/-- C9 counterexample: the five failure conditions are not surfaced as
distinct error *types* in the source: the missing-file, marker-count,
no-tracks and no-video-track failures are all `raise ValueError(...)`
(lines 39, 86, 94, 101), distinguishable only by message, and the parse
failure is `json.JSONDecodeError` — itself a `ValueError` subclass. -/
theorem c9_counterexample :
    pyClass Err.notFound = pyClass Err.insufficientMarkers ∧
      pyClass Err.notFound = pyClass Err.noTracks ∧
      pyClass Err.notFound = pyClass Err.noVideoTrack :=
  ⟨rfl, rfl, rfl⟩

/-- C9 (amended): the load step fails with the not-found error when the
file is absent and the format error when the content is unparseable; the
five validation failures are five distinct raise sites yielding pairwise
distinct error values with pairwise distinct messages — though in the
source four of the five share the Python class `ValueError` (and the
parser error subclasses it), so they are distinguishable by message, not
by class; and none is caught or retried internally: an error raised by the
shuffle step is surfaced unchanged by the whole operation. -/
theorem c9_error_taxonomy (rnd : Nat → List Nat → List Nat) :
    shuffle_segments_between_marker_pairs rnd .missing =
        (.missing, some .notFound) ∧
      shuffle_segments_between_marker_pairs rnd .malformed =
        (.malformed, some .formatError) ∧
      List.Pairwise (· ≠ ·)
        [Err.notFound, Err.formatError, Err.insufficientMarkers,
          Err.noTracks, Err.noVideoTrack] ∧
      List.Pairwise (· ≠ ·)
        ([Err.notFound, Err.formatError, Err.insufficientMarkers,
          Err.noTracks, Err.noVideoTrack].map pyMessage) ∧
      pyClass Err.notFound = pyClass Err.insufficientMarkers ∧
      (∀ (d : Document) (e : Err), (shuffleDraft rnd d).2 = some e →
        (shuffle_segments_between_marker_pairs rnd (.parsed d)).2 = some e) := by
  refine ⟨rfl, rfl, by decide, by decide, rfl, ?_⟩
  intro d e h
  rw [top_parsed_some h]

/-- C9 witness: propagation applied to a document that fails the marker
guard. -/
theorem c9_error_taxonomy_witness :
    (shuffleDraft idRnd oneMarkDoc).2 = some .insufficientMarkers ∧
      (shuffle_segments_between_marker_pairs idRnd (.parsed oneMarkDoc)).2 =
        some .insufficientMarkers :=
  ⟨by decide,
    (c9_error_taxonomy idRnd).2.2.2.2.2 oneMarkDoc .insufficientMarkers (by decide)⟩

/-! ### Claim C10 -/

/-- C10: a target-track segment with `target_timerange` absent (or with
`start`/`duration` keys absent) is treated by the containment test as
having start 0 and duration 0 — one with the dict entirely absent is
collected exactly when `window_start ≤ 0 ≤ window_end` — and for such a
collected segment the re-timing write on line 164 is unguarded: the
operation raises the key-lookup error instead of defaulting, as shown on a
concrete run. -/
theorem c10_missing_timerange :
    (∀ (ws we : Int) (p : Nat),
      (containsSeg ws we ⟨none, p⟩ = true ↔ ws ≤ 0 ∧ 0 ≤ we)) ∧
      (∀ (ws we : Int) (p : Nat),
        (containsSeg ws we ⟨some ⟨none, none⟩, p⟩ = true ↔ ws ≤ 0 ∧ 0 ≤ we)) ∧
      (∀ (du : Int) (p : Nat), segStart ⟨some ⟨none, some du⟩, p⟩ = 0) ∧
      (∀ (st : Int) (p : Nat), segDuration ⟨some ⟨some st, none⟩, p⟩ = 0) ∧
      collectInRange missDoc.heap [0] 0 1000 = [0] ∧
      shuffleDraft idRnd missDoc = (missDoc, some .keyError) ∧
      shuffle_segments_between_marker_pairs idRnd (.parsed missDoc) =
        (.parsed missDoc, some .keyError) := by
  refine ⟨?_, ?_, fun _ _ => rfl, fun _ _ => rfl, by decide, by decide, by decide⟩
  · intro ws we p
    simp [containsSeg, segStart, segDuration]
  · intro ws we p
    simp [containsSeg, segStart, segDuration]

/-! ### Claim C6 -/

theorem processPair_untouched {pick : List Nat → List Nat} {st : St} {ws we : Int}
    (hperm : (pick (collectInRange st.heap st.ids ws we)).Perm
      (collectInRange st.heap st.ids ws we))
    {j x : Nat} {v : Segment}
    (hx : st.ids.getD j 0 = x) (hv : getSeg st.heap x = v)
    (hnc : ws < we → containsSeg ws we v = false) :
    (processPair pick st ws we).1.ids.getD j 0 = x ∧
      getSeg (processPair pick st ws we).1.heap x = v := by
  by_cases hge : ws ≥ we
  · rw [processPair_skip pick st hge]
    exact ⟨hx, hv⟩
  by_cases hsir : collectInRange st.heap st.ids ws we = []
  · rw [processPair_empty pick st hge hsir]
    exact ⟨hx, hv⟩
  have hncv := hnc (lt_of_not_ge hge)
  have hsub : ∀ s ∈ pick (collectInRange st.heap st.ids ws we),
      s ∈ collectInRange st.heap st.ids ws we :=
    fun s hs => hperm.mem_iff.mp hs
  have hxnot : x ∉ pick (collectInRange st.heap st.ids ws we) := by
    intro hmem
    have hc := ((collectInRange_mem st.heap st.ids ws we x).mp (hsub x hmem)).2
    rw [hv, hncv] at hc
    cases hc
  have hall : ∀ s ∈ pick (collectInRange st.heap st.ids ws we),
      (pyIndex st.heap st.ids s).isSome :=
    fun s hs =>
      pyIndex_isSome_of_mem ((collectInRange_mem st.heap st.ids ws we s).mp
        (hsub s hs)).1
  have hmap := mapOption_eq_map (pyIndex st.heap st.ids) 0 hall
  rw [processPair_run hge hsir hmap]
  dsimp only
  constructor
  · have hjnot : j ∉ sortAsc ((pick (collectInRange st.heap st.ids ws we)).map
        (fun sid => (pyIndex st.heap st.ids sid).getD 0)) := by
      intro hjmem
      have hjslots := mem_idxs_slots hsub hmap j ((sortAsc_perm _).mem_iff.mp hjmem)
      have hc := ((collectedSlots_mem st.heap st.ids ws we j).mp hjslots).2
      rw [hx, hv, hncv] at hc
      cases hc
    rw [place_getD_not_mem _ _ _ _ _ hjnot]
    exact hx
  · rw [retimeAux_not_mem _ _ _ _ hxnot]
    exact hv

theorem processPairs_untouched {rnd : Nat → List Nat → List Nat}
    (hrnd : ∀ k l, (rnd k l).Perm l) :
    ∀ (pairs : List (Int × Int)) (st : St) (k : Nat) (j x : Nat) (v : Segment),
      st.ids.getD j 0 = x → getSeg st.heap x = v →
      (∀ p ∈ pairs, p.1 < p.2 → containsSeg p.1 p.2 v = false) →
      (processPairs rnd st pairs k).1.ids.getD j 0 = x ∧
        getSeg (processPairs rnd st pairs k).1.heap x = v
  | [], _, _, _, _, _, hx, hv, _ => ⟨hx, hv⟩
  | (ws, we) :: rest, st, k, j, x, v, hx, hv, hnc => by
    have hstep := processPair_untouched (hrnd k _) hx hv
      (fun hlt => hnc (ws, we) (List.mem_cons_self _ _) hlt)
    cases hp : processPair (rnd k) st ws we with
    | mk st₂ err =>
      rw [hp] at hstep
      cases err with
      | none =>
        rw [processPairs, hp]
        exact processPairs_untouched hrnd rest st₂ (k + 1) j x v hstep.1 hstep.2
          (fun p hp₂ => hnc p (List.mem_cons_of_mem _ hp₂))
      | some e =>
        rw [processPairs, hp]
        exact hstep

theorem selectTarget_ok_mem {tracks : List Track} {ti : Nat} {tt : Track}
    (h : selectTarget tracks = .ok (ti, tt)) :
    (ti, tt) ∈ tracks.enum.filter (fun it => isVideoWithSegs it.2) := by
  unfold selectTarget at h
  by_cases hnil : tracks.isEmpty
  · rw [if_pos hnil] at h
    cases h
  rw [if_neg hnil] at h
  cases hfil : tracks.enum.filter (fun it => isVideoWithSegs it.2) with
  | nil =>
    rw [hfil] at h
    cases h
  | cons v vs =>
    rw [hfil] at h
    injection h with h
    rcases foldl_maxStep_mem vs v with hm | hm
    · rw [h] at hm
      rw [← hm]
      exact List.mem_cons_self (ti, tt) vs
    · rw [h] at hm
      exact List.mem_cons_of_mem v hm

theorem selectTarget_ok_getD {tracks : List Track} {ti : Nat} {tt : Track}
    (h : selectTarget tracks = .ok (ti, tt)) :
    ti < tracks.length ∧ tracks.getD ti ⟨none, []⟩ = tt := by
  have hmem := (List.mem_filter.mp (selectTarget_ok_mem h)).1
  have hget := List.mem_enum_iff_getElem?.mp hmem
  obtain ⟨hlt, heq⟩ := List.getElem?_eq_some_iff.mp hget
  refine ⟨hlt, ?_⟩
  rw [List.getD_eq_getElem tracks _ hlt]
  exact heq

/-- C6: a target-track segment whose value is not contained in any valid
window (w.r.t. the containment test) keeps its slot index and its exact
value (start included) through the whole shuffle; tracks other than the
target track and the `time_marks` section are never written. -/
theorem c6_untouched_segments {rnd : Nat → List Nat → List Nat}
    (hrnd : ∀ k l, (rnd k l).Perm l) {d : Document} {ti : Nat} {tt : Track}
    (hsel : selectTarget d.tracks = .ok (ti, tt)) {j x : Nat} {v : Segment}
    (hj : tt.segments.getD j 0 = x) (hv : getSeg d.heap x = v)
    (hnc : ∀ p ∈ markerPairs (markersOf d), p.1 < p.2 →
      containsSeg p.1 p.2 v = false) :
    (((shuffleDraft rnd d).1.tracks.getD ti ⟨none, []⟩).segments.getD j 0 = x ∧
      getSeg (shuffleDraft rnd d).1.heap x = v) ∧
      (∀ t, t ≠ ti →
        (shuffleDraft rnd d).1.tracks.getD t ⟨none, []⟩ =
          d.tracks.getD t ⟨none, []⟩) ∧
      (shuffleDraft rnd d).1.time_marks = d.time_marks := by
  obtain ⟨hti, htt⟩ := selectTarget_ok_getD hsel
  by_cases hm : (markersOf d).length < 2
  · have hdraft : shuffleDraft rnd d = (d, some .insufficientMarkers) := by
      unfold shuffleDraft
      rw [if_pos hm]
    rw [hdraft]
    refine ⟨⟨?_, hv⟩, fun t _ => rfl, rfl⟩
    rw [htt]
    exact hj
  · rw [shuffleDraft_ok hm hsel]
    dsimp only
    obtain ⟨hids, hheap⟩ := processPairs_untouched hrnd (markerPairs (markersOf d))
      ⟨d.heap, tt.segments⟩ 0 j x v hj hv hnc
    refine ⟨⟨?_, hheap⟩, ?_, rfl⟩
    · rw [getD_set_self hti]
      exact hids
    · intro t hti₂
      exact getD_set_ne (Ne.symm hti₂) _ _

/-- C6 witness: the theorem applied to a document with one segment inside
the single window and one outside it (the outside one keeps slot 1 and
start 5000), with the reversing shuffle outcome. -/
theorem c6_untouched_segments_witness :
    (selectTarget outDoc.tracks = .ok (0, ⟨some videoTag, [0, 1]⟩) ∧
      (⟨some videoTag, [0, 1]⟩ : Track).segments.getD 1 0 = 1 ∧
      getSeg outDoc.heap 1 = mkSeg 5000 10 1 ∧
      (∀ p ∈ markerPairs (markersOf outDoc), p.1 < p.2 →
        containsSeg p.1 p.2 (mkSeg 5000 10 1) = false)) ∧
      ((((shuffleDraft revRnd outDoc).1.tracks.getD 0 ⟨none, []⟩).segments.getD 1 0 = 1 ∧
        getSeg (shuffleDraft revRnd outDoc).1.heap 1 = mkSeg 5000 10 1) ∧
        (∀ t, t ≠ 0 →
          (shuffleDraft revRnd outDoc).1.tracks.getD t ⟨none, []⟩ =
            outDoc.tracks.getD t ⟨none, []⟩) ∧
        (shuffleDraft revRnd outDoc).1.time_marks = outDoc.time_marks) :=
  ⟨⟨rfl, by decide, by decide, by decide⟩,
    @c6_untouched_segments revRnd (fun _ l => l.reverse_perm) outDoc 0
      ⟨some videoTag, [0, 1]⟩ rfl 1 1 (mkSeg 5000 10 1) (by decide) (by decide)
      (by decide)⟩
